import Mathlib

/-!
Shallow embedding of the CV scoring and ATS-heuristic inference engine of
`src/app.py` (ATS-Inspector & CV Optimizer), together with theorems about it.

Conventions of the embedding:
* Python `str` is `String` (a list of unicode code points, as in Python);
  `len` is `String.length`, `s.lower()` is lowercasing each character
  (ASCII case mapping), `needle in hay` is the substring test `pyIn`.
* Python floats are modelled as exact rationals `ℚ`; `round` is Python's
  round-half-to-even, `min` is `min`.
* `re.search` is modelled by the existence of a match: for the two contact
  patterns of `find_contact_info` every call site uses only the truthiness
  of the result (matches of these patterns are never the empty string), so
  the embedding returns the found/not-found Boolean for each pattern.
-/

namespace ATSApp

/-- Characters matched by Python's `\s` class (ASCII range). -/
def isPyWs (c : Char) : Bool :=
  c == ' ' || c == '\t' || c == '\n' || c == '\r' || c == '\x0b' || c == '\x0c'

/-- Python `s.lower()` (ASCII case mapping). -/
def pyLower (s : String) : String :=
  String.mk (s.data.map Char.toLower)

/-- Substring test on character lists: does `n` occur as a contiguous
    sublist of `h`?  (Python's `n in h` on strings.) -/
def listContains (n : List Char) : List Char → Bool
  | [] => n.isEmpty
  | c :: rest => n.isPrefixOf (c :: rest) || listContains n rest

/-- Python's `needle in hay` on strings. -/
def pyIn (needle hay : String) : Bool :=
  listContains needle.data hay.data

/-- Characters of the class `[\w\.-]` used by the e-mail pattern of
    `find_contact_info` (ASCII range of `\w`, plus dot and hyphen). -/
def isEmailCh (c : Char) : Bool :=
  c.isAlphanum || c == '_' || c == '.' || c == '-'

/-- Existence of a match of the e-mail pattern `[\w\.-]+@[\w\.-]+`
    anywhere in the text: such a match exists exactly when some `'@'` has a
    `[\w\.-]` character directly on each side. -/
def emailScan : List Char → Bool
  | a :: b :: c :: rest =>
      (isEmailCh a && b == '@' && isEmailCh c) || emailScan (b :: c :: rest)
  | _ => false

/-- Whether the e-mail pattern of `find_contact_info` matches in `s`. -/
def email_found (s : String) : Bool :=
  emailScan s.data

/-- Python `\d` (ASCII range). -/
def isDigitCh (c : Char) : Bool :=
  c.isDigit

/-- Characters of the class `[\s-]` used by the phone pattern. -/
def isSepCh (c : Char) : Bool :=
  isPyWs c || c == '-'

/-- Consume exactly `k` digit characters, returning the rest of the input,
    or `none` if fewer than `k` digits lead the input. -/
def dropDigits : Nat → List Char → Option (List Char)
  | 0, l => some l
  | _ + 1, [] => none
  | k + 1, c :: l => if isDigitCh c then dropDigits k l else none

/-- After one group `\d{2,4}[\s-]?`: the possible rests of the input
    (the repetition count 2–4 and the optional separator are the
    nondeterministic choices of the backtracking matcher). -/
def groupRests (l : List Char) : List (List Char) :=
  ([2, 3, 4].filterMap (fun k => dropDigits k l)).flatMap fun r =>
    match r with
    | c :: r2 => if isSepCh c then [c :: r2, r2] else [c :: r2]
    | [] => [[]]

/-- Does the mandatory part `(?:\d{2,4}[\s-]?){2,4}\d{2,4}` of the phone
    pattern match starting at the head of `l` (for some backtracking
    choice)? -/
def matchPhoneAt (l : List Char) : Bool :=
  let r2 := (groupRests l).flatMap groupRests
  let r3 := r2.flatMap groupRests
  let r4 := r3.flatMap groupRests
  (r2 ++ r3 ++ r4).any fun r => [2, 3, 4].any fun k => (dropDigits k r).isSome

/-- Does `p` hold of some suffix of the list? -/
def anySuffix (p : List Char → Bool) : List Char → Bool
  | [] => p []
  | c :: rest => p (c :: rest) || anySuffix p rest

/-- Whether the phone pattern
    `(?:\+?\d{2,3}[\s-]?)?(?:\d{2,4}[\s-]?){2,4}\d{2,4}` of
    `find_contact_info` matches somewhere in `s`.  The leading group is
    optional, so a match of the whole pattern exists somewhere iff a match
    of the mandatory tail exists somewhere; the embedding tests the tail at
    every start position. -/
def phone_found (s : String) : Bool :=
  anySuffix matchPhoneAt s.data

/-- `find_contact_info` of `src/app.py`: the source returns the first
    e-mail-pattern match and the first phone-pattern match (or `None`);
    every caller uses only their truthiness, embedded here as the pair of
    found/not-found Booleans. -/
def find_contact_info (text : String) : Bool × Bool :=
  (email_found text, phone_found text)

/-- Line-break characters of Python's `str.splitlines`. -/
def isLineBreakCh (c : Char) : Bool :=
  c == '\n' || c == '\r' || c == '\x0b' || c == '\x0c' ||
  c == '\x1c' || c == '\x1d' || c == '\x1e' || c == '\x85' ||
  c == '\u2028' || c == '\u2029'

/-- Python `str.splitlines`, with `\r\n` counting as one break and no
    trailing empty line. `acc` holds the current line reversed. -/
def splitlinesAux : List Char → List Char → List (List Char)
  | acc, [] => if acc.isEmpty then [] else [acc.reverse]
  | acc, '\r' :: '\n' :: rest => acc.reverse :: splitlinesAux [] rest
  | acc, c :: rest =>
      if isLineBreakCh c then acc.reverse :: splitlinesAux [] rest
      else splitlinesAux (c :: acc) rest
termination_by _ l => l.length

/-- Python `s.splitlines()`. -/
def splitlines (s : String) : List (List Char) :=
  splitlinesAux [] s.data

/-- Python's `round` on our rational model of floats: round half to even. -/
def pyround (q : ℚ) : Int :=
  let f : Int := ⌊q⌋
  let r : ℚ := q - (f : ℚ)
  if r < 1 / 2 then f
  else if 1 / 2 < r then f + 1
  else if f % 2 = 0 then f else f + 1

/-- Python's `round(x, 1)` on our rational model of floats. -/
def round1 (q : ℚ) : ℚ :=
  (pyround (10 * q) : ℚ) / 10

/-- The contact component of `score_resume` (weight 15): full weight when
    both an e-mail and a phone pattern are found, 60 % of the weight when
    exactly one is, else 0. -/
def contactScore (cv_text : String) : ℚ :=
  let ep := find_contact_info cv_text
  if ep.1 && ep.2 then 15
  else if ep.1 || ep.2 then 15 * (6 / 10)
  else 0

/-- The title component of `score_resume` (weight 15): full weight when the
    job title is present (truthy) and its lowercasing is a substring of the
    lowercased CV text. -/
def titleScore (cv_text : String) (job_title : Option String) : ℚ :=
  match job_title with
  | none => 0
  | some t => if (t != "") && pyIn (pyLower t) (pyLower cv_text) then 15 else 0

/-- The keyword component of `score_resume` (weight 40): the source
    lowercases the keyword list, counts how many elements of its set of
    distinct elements occur in the lowercased CV text, and scales the
    weight by `matched / max(1, len(job_keywords))`; an empty list gets
    half the weight. -/
def keywordScore (cv_text : String) (job_keywords : List String) : ℚ :=
  let ks := job_keywords.map pyLower
  let cv_lower := pyLower cv_text
  if ks.isEmpty then 40 * (1 / 2)
  else
    let matched := (ks.dedup.filter fun k => pyIn k cv_lower).length
    40 * ((matched : ℚ) / ((max 1 ks.length : ℕ) : ℚ))

/-- The length component of `score_resume` (weight 10). -/
def lengthScore (cv_text : String) : ℚ :=
  let chars := cv_text.length
  if chars > 1000 then 10
  else if chars > 500 then 10 * (6 / 10)
  else 0

/-- The formatting component of `score_resume` (weight 10), halved when the
    non-ASCII character fraction exceeds 0.02, or more than 5 tabs occur,
    or more than 5 lines exceed 200 characters. -/
def formattingScore (cv_text : String) : ℚ :=
  let n := cv_text.length
  let nonAscii := (cv_text.data.filter fun c => c.toNat > 127).length
  let nonAsciiFrac : ℚ := (nonAscii : ℚ) / ((max 1 n : ℕ) : ℚ)
  let tabs := (cv_text.data.filter fun c => c == '\t').length
  let longLines := ((splitlines cv_text).filter fun l => l.length > 200).length
  if nonAsciiFrac > 2 / 100 ∨ tabs > 5 ∨ longLines > 5 then 10 * (1 / 2) else 10

/-- The score breakdown returned by `score_resume` (each component rounded
    to one decimal for reporting). -/
structure Breakdown where
  contact_score : ℚ
  title_score : ℚ
  keyword_score : ℚ
  length_score : ℚ
  formatting_score : ℚ
deriving DecidableEq

/-- `score_resume` of `src/app.py`: weighted components, summed, rounded
    and capped at 100. -/
def score_resume (cv_text : String) (job_keywords : List String)
    (job_title : Option String) : Int × Breakdown :=
  let contact := contactScore cv_text
  let title := titleScore cv_text job_title
  let keyword := keywordScore cv_text job_keywords
  let length := lengthScore cv_text
  let formatting := formattingScore cv_text
  let total : Int := min 100 (pyround (contact + title + keyword + length + formatting))
  (total, ⟨round1 contact, round1 title, round1 keyword, round1 length, round1 formatting⟩)

-- -------------------- ATS signatures and detection --------------------

deriving instance DecidableEq for Except

/-- Fold of `Counter(...).most_common(1)`: traverse the list, replacing the
    current best only on a strictly larger count, so ties keep the earlier
    element. -/
def mostCommonGo (l : List String) : List String → String → String
  | [], best => best
  | y :: ys, best => mostCommonGo l ys (if l.count best < l.count y then y else best)

/-- `Counter(l).most_common(1)`: the most frequent element of `l`, ties
    broken by first occurrence; `none` for the empty list. -/
def mostCommon : List String → Option String
  | [] => none
  | x :: xs => some (mostCommonGo (x :: xs) xs x)

/-- The `STOPWORDS` set of `src/app.py`. -/
def STOPWORDS : List String :=
  ["the", "a", "an", "and", "or", "to", "of", "for", "with", "on", "in",
   "at", "by", "from", "as", "is", "are", "that", "this", "will", "be"]

/-- Python `str.split()` with no argument: split on whitespace runs,
    dropping empty pieces. `acc` holds the current token reversed. -/
def splitWsAux : List Char → List Char → List String
  | acc, [] => if acc.isEmpty then [] else [String.mk acc.reverse]
  | acc, c :: rest =>
      if isPyWs c then
        if acc.isEmpty then splitWsAux [] rest
        else String.mk acc.reverse :: splitWsAux [] rest
      else splitWsAux (c :: acc) rest

/-- The token list of `extract_keywords`: replace every character outside
    `[A-Za-z0-9\-\s]` by a space, split on whitespace, keep tokens longer
    than 2 characters, lowercase them, and drop stopwords. -/
def tokensOf (text : String) : List String :=
  let cleaned := text.data.map fun c =>
    if c.isAlphanum || c == '-' || isPyWs c then c else ' '
  let toks := ((splitWsAux [] cleaned).filter fun t => t.length > 2).map pyLower
  toks.filter fun t => !STOPWORDS.contains t

/-- `Counter(l).most_common(n)` without the counts: repeatedly select the
    most frequent element (ties by first occurrence) and remove all its
    occurrences — extensionally the stable descending sort by count,
    truncated to `n`. -/
def mostCommonTake : Nat → List String → List String
  | 0, _ => []
  | n + 1, l =>
      match mostCommon l with
      | none => []
      | some w => w :: mostCommonTake n (l.filter fun t => t != w)

/-- `extract_keywords` of `src/app.py` (the source gives `top_n` the
    default value 25). -/
def extract_keywords (text : String) (top_n : Nat) : List String :=
  mostCommonTake top_n (tokensOf text)

-- -------------------- Tips --------------------

/-- The `GENERIC_TIPS` pool of `src/app.py`. -/
def GENERIC_TIPS : List String := [
  "Use a single-column layout: most ATS parse single-column text better than multi-column or tables.",
  "Prefer standard section headings: \"Work Experience\", \"Education\", \"Skills\", \"Contact\".",
  "Save as DOCX or a simple PDF (DOCX is usually safest). Avoid images, text in headers/footers, and fancy graphics.",
  "Use standard date formats (e.g., Apr 2020 \u2013 Feb 2023).",
  "Include a concise skills section listing keywords from the job advert.",
  "Avoid special characters and excessive symbols (they sometimes break parsers)."]

/-- The `ATS_TIPS` table of `src/app.py`. -/
def ATS_TIPS : List (String × List String) := [
  ("Greenhouse",
    ["Greenhouse parses plain DOCX well; avoid placing contact information inside headers/footers.",
     "Use clear bullets for accomplishments and avoid images or complex tables."]),
  ("Lever",
    ["Lever-based career pages prefer standard section headings and clear dates per job role.",
     "Avoid embedding text inside text-boxes or columns."]),
  ("Workday",
    ["Workday can struggle with multi-column layouts; use single column and plain fonts.",
     "Place your contact details at the top in plain text (not header/footer)."]),
  ("iCIMS",
    ["iCIMS works well with DOCX \u2014 keep skills in a dedicated section and use plain bullets."]),
  ("Taleo",
    ["Taleo-based portals sometimes struggle with special characters \u2014 remove emoji and fancy bullets."]),
  ("Unknown/Custom",
    ["This appears to be a custom portal. Follow generic ATS best-practices: simple DOCX, clear headings, no images."])]

/-- The tip appended by `build_improvement_tips` when no Experience
    section is detected. -/
def expTip : String :=
  "Add a clear \"Work Experience\" section with job titles and dates."

/-- `build_improvement_tips` of `src/app.py`.  `score` is the integer
    total produced by `score_resume` (formatted with `{:.0f}`, i.e. its
    decimal representation). -/
def build_improvement_tips (score : Int) (ats_name cv_text : String)
    (job_keywords : List String) : List String :=
  if score ≥ 85 then
    ["Great \u2014 your CV scored " ++ toString score ++
     ". Minor tweaks can still help, but it is ATS-friendly."]
  else
    let ats_specific := (ATS_TIPS.lookup ats_name).getD
      ((ATS_TIPS.lookup "Unknown/Custom").getD [])
    let sectionTips :=
      if !(pyIn "Work Experience" cv_text) && !(pyIn "Experience" cv_text) then [expTip] else []
    let emailTips := if email_found cv_text then [] else
      ["Add a visible email address at the top of the CV."]
    let phoneTips := if phone_found cv_text then [] else
      ["Add a phone number at the top of the CV."]
    let kwTips :=
      if job_keywords.isEmpty then []
      else
        let cv_lower := pyLower cv_text
        let missing := job_keywords.filter fun k => !(pyIn (pyLower k) cv_lower)
        if missing.isEmpty then []
        else ["Include more of these job-specific keywords where truthful: " ++
              String.intercalate ", " (missing.take 12)]
    ("Your CV scored " ++ toString score ++ "/100. Here are prioritized improvement tips:") ::
      (ats_specific ++ sectionTips ++ emailTips ++ phoneTips ++ kwTips ++ GENERIC_TIPS.take 3)

-- -------------------- HTML job-text extraction --------------------

/-- Abstraction of the parsed `BeautifulSoup` document as
    `extract_job_text_from_html` consumes it: for each entry of the
    source's selector list, the text `select_one(sel).get_text(separator=' ',
    strip=True)` of the first matching element (`none` when no element
    matches), and likewise the text of `soup.body`. -/
structure Soup where
  selRes : List (Option String)
  bodyRes : Option String
deriving DecidableEq

/-- The selector loop of `extract_job_text_from_html`: each selector whose
    element exists and has non-empty text overwrites the candidate, and a
    candidate longer than 200 characters stops the loop. -/
def candidateLoop : List (Option String) → String → String
  | [], acc => acc
  | r :: rest, acc =>
      match r with
      | some t =>
          if t != "" then (if t.length > 200 then t else candidateLoop rest t)
          else candidateLoop rest acc
      | none => candidateLoop rest acc

/-- The cleanup `re.sub` of `extract_job_text_from_html`: each maximal
    whitespace run becomes one space. -/
def collapseWsAux : List Char → List Char
  | [] => []
  | [c] => if isPyWs c then [' '] else [c]
  | a :: b :: rest =>
      if isPyWs a && isPyWs b then collapseWsAux (b :: rest)
      else (if isPyWs a then ' ' else a) :: collapseWsAux (b :: rest)

/-- Whitespace collapsing on strings. -/
def collapseWs (s : String) : String :=
  String.mk (collapseWsAux s.data)

/-- `extract_job_text_from_html` of `src/app.py`, over the `Soup`
    abstraction: run the selector loop, fall back to the body text only
    when the candidate is empty, then collapse whitespace. -/
def extract_job_text_from_html (soup : Soup) : String :=
  let candidate := candidateLoop soup.selRes ""
  let candidate2 :=
    if candidate == "" then
      match soup.bodyRes with
      | some b => b
      | none => candidate
    else candidate
  collapseWs candidate2

/-- No two adjacent whitespace characters. -/
def noWsRun : List Char → Bool
  | [] => true
  | [_] => true
  | a :: b :: rest => !(isPyWs a && isPyWs b) && noWsRun (b :: rest)

/-- Every whitespace run is a single space: all whitespace characters are
    plain spaces and none are adjacent. -/
def wsCollapsed (l : List Char) : Bool :=
  (l.all fun c => !(isPyWs c) || c == ' ') && noWsRun l

-- -------------------- Helper lemmas --------------------

theorem isPrefixOf_eq_true : ∀ n h : List Char, n.isPrefixOf h = true ↔ n <+: h := by
  intro n
  induction n with
  | nil =>
      intro h
      simp [List.isPrefixOf]
  | cons a as ih =>
      intro h
      cases h with
      | nil =>
          simp [List.isPrefixOf]
      | cons b bs =>
          simp [List.isPrefixOf, ih, List.cons_prefix_cons, and_comm]

theorem listContains_iff (n : List Char) : ∀ h : List Char, listContains n h = true ↔ n <:+: h := by
  intro h
  induction h with
  | nil =>
      constructor
      · intro he
        have : n = [] := by
          cases n with
          | nil => rfl
          | cons a as => simp [listContains, List.isEmpty] at he
        simp [this]
      · intro hi
        have : n = [] := List.infix_nil.mp hi
        simp [this, listContains, List.isEmpty]
  | cons c rest ih =>
      constructor
      · intro he
        rcases Bool.or_eq_true_iff.mp he with hp | hr
        · rcases isPrefixOf_eq_true _ _ |>.mp hp with ⟨t, ht⟩
          exact ⟨[], t, by simpa using ht⟩
        · exact (List.infix_cons_iff).mpr (Or.inr (ih.mp hr))
      · intro hi
        rcases List.infix_cons_iff.mp hi with hp | hr
        · exact Bool.or_eq_true_iff.mpr (Or.inl ((isPrefixOf_eq_true _ _).mpr hp))
        · exact Bool.or_eq_true_iff.mpr (Or.inr (ih.mpr hr))

theorem pyIn_iff (needle hay : String) : pyIn needle hay = true ↔ needle.data <:+: hay.data :=
  listContains_iff needle.data hay.data

theorem pyround_nonneg {q : ℚ} (h : 0 ≤ q) : 0 ≤ pyround q := by
  have hf : (0 : Int) ≤ ⌊q⌋ := Int.floor_nonneg.mpr h
  unfold pyround
  dsimp only
  split_ifs <;> omega

theorem contactScore_eq (cv_text : String) :
    contactScore cv_text =
      if email_found cv_text && phone_found cv_text then 15
      else if email_found cv_text || phone_found cv_text then 15 * (6 / 10)
      else 0 := rfl

theorem contactScore_nonneg (cv_text : String) : 0 ≤ contactScore cv_text := by
  rw [contactScore_eq]
  split_ifs <;> norm_num

theorem titleScore_nonneg (cv_text : String) (job_title : Option String) :
    0 ≤ titleScore cv_text job_title := by
  unfold titleScore
  cases job_title with
  | none => norm_num
  | some t => dsimp only; split_ifs <;> norm_num

theorem keywordScore_nonneg (cv_text : String) (job_keywords : List String) :
    0 ≤ keywordScore cv_text job_keywords := by
  unfold keywordScore
  dsimp only
  split_ifs
  · norm_num
  · have h1 : (0 : ℚ) ≤ (((job_keywords.map pyLower).dedup.filter fun k =>
        pyIn k (pyLower cv_text)).length : ℚ) := by positivity
    have h2 : (0 : ℚ) ≤ ((max 1 (job_keywords.map pyLower).length : ℕ) : ℚ) := by positivity
    have := div_nonneg h1 h2
    nlinarith

theorem lengthScore_nonneg (cv_text : String) : 0 ≤ lengthScore cv_text := by
  unfold lengthScore
  dsimp only
  split_ifs <;> norm_num

theorem formattingScore_nonneg (cv_text : String) : 0 ≤ formattingScore cv_text := by
  unfold formattingScore
  dsimp only
  split_ifs <;> norm_num

-- -------------------- Claim theorems: scoring --------------------

/-- C1: for every CV text, keyword list and optional job title, the total
    returned by `score_resume` is an integer with `0 ≤ total ≤ 100`, and it
    is exactly the rounded sum of the five components capped at 100. -/
theorem score_resume_total_in_range (cv_text : String) (job_keywords : List String)
    (job_title : Option String) :
    0 ≤ (score_resume cv_text job_keywords job_title).1 ∧
    (score_resume cv_text job_keywords job_title).1 ≤ 100 ∧
    (score_resume cv_text job_keywords job_title).1 =
      min 100 (pyround (contactScore cv_text + titleScore cv_text job_title +
        keywordScore cv_text job_keywords + lengthScore cv_text + formattingScore cv_text)) := by
  have h1 : (score_resume cv_text job_keywords job_title).1 =
      min 100 (pyround (contactScore cv_text + titleScore cv_text job_title +
        keywordScore cv_text job_keywords + lengthScore cv_text + formattingScore cv_text)) := rfl
  refine ⟨?_, ?_, h1⟩
  · rw [h1]
    refine le_min (by norm_num) (pyround_nonneg ?_)
    have hc := contactScore_nonneg cv_text
    have ht := titleScore_nonneg cv_text job_title
    have hk := keywordScore_nonneg cv_text job_keywords
    have hl := lengthScore_nonneg cv_text
    have hf := formattingScore_nonneg cv_text
    linarith
  · rw [h1]
    exact min_le_left _ _

/-- C2: the keyword component is `40 * matched / len(job_keywords)` for a
    non-empty distinct keyword list, where `matched` counts the distinct
    lowercased keywords occurring as substrings of the lowercased CV text,
    and is exactly 20 (a neutral 50 % of the weight of 40) for an empty
    keyword list. -/
theorem keywordScore_spec (cv_text : String) (job_keywords : List String)
    (hne : job_keywords ≠ []) (hnd : (job_keywords.map pyLower).Nodup) :
    keywordScore cv_text job_keywords =
      40 * ((((job_keywords.map pyLower).dedup.filter fun k =>
        pyIn k (pyLower cv_text)).length : ℚ) / (job_keywords.length : ℚ)) ∧
    keywordScore cv_text [] = 20 := by
  constructor
  · unfold keywordScore
    have hmapne : job_keywords.map pyLower ≠ [] := by
      simpa using hne
    have hie : (job_keywords.map pyLower).isEmpty = false := by
      simpa [List.isEmpty_iff] using hmapne
    rw [if_neg (by simp [hie])]
    have hlen : (job_keywords.map pyLower).length = job_keywords.length :=
      List.length_map _ _
    have hpos : 1 ≤ job_keywords.length :=
      Nat.one_le_iff_ne_zero.mpr (by simpa [List.length_eq_zero] using hne)
    have hmax : max 1 (job_keywords.map pyLower).length = job_keywords.length := by
      rw [hlen]
      exact Nat.max_eq_right hpos
    rw [hmax]
  · unfold keywordScore
    norm_num

/-- C3: the contact component of `score_resume` is 15 when both an e-mail
    and a phone pattern are found in the CV text, `15 * 0.6 = 9.0` when
    exactly one of the two is found, and 0 when neither is found. -/
theorem contactScore_cases (cv_text : String) :
    (email_found cv_text = true → phone_found cv_text = true →
      contactScore cv_text = 15) ∧
    (email_found cv_text ≠ phone_found cv_text → contactScore cv_text = 9) ∧
    (email_found cv_text = false → phone_found cv_text = false →
      contactScore cv_text = 0) := by
  have h9 : (15 : ℚ) * (6 / 10) = 9 := by norm_num
  refine ⟨?_, ?_, ?_⟩
  · intro he hp
    rw [contactScore_eq, he, hp]
    norm_num
  · intro hne
    rw [contactScore_eq]
    cases he : email_found cv_text <;> cases hp : phone_found cv_text <;>
      simp_all
  · intro he hp
    rw [contactScore_eq, he, hp]
    norm_num

/-- Witness for C3 at the spec's own examples: a CV text holding both the
    e-mail and the phone earns 15, one holding only the e-mail earns 9. -/
theorem contactScore_cases_witness :
    contactScore "jane@example.com +1 555-123-4567" = 15 ∧
    contactScore "jane@example.com" = 9 := by
  constructor
  · exact (contactScore_cases "jane@example.com +1 555-123-4567").1 (by decide) (by decide)
  · exact (contactScore_cases "jane@example.com").2.1 (by decide)

/-- Witness for C2: a concrete non-empty distinct keyword list with one of
    two keywords matched, and the empty keyword list. -/
theorem keywordScore_spec_witness :
    (["cat", "bird"] : List String) ≠ [] ∧ ((["cat", "bird"] : List String).map pyLower).Nodup ∧
    (keywordScore "cat dog" ["cat", "bird"] =
      40 * ((((["cat", "bird"].map pyLower).dedup.filter fun k =>
        pyIn k (pyLower "cat dog")).length : ℚ) / ((["cat", "bird"] : List String).length : ℚ)) ∧
     keywordScore "cat dog" [] = 20) :=
  ⟨by decide, by decide, keywordScore_spec "cat dog" ["cat", "bird"] (by decide) (by decide)⟩

/-- C9: with duplicates in the keyword list, matching counts distinct
    lowercased keywords but the divisor stays the full list length, so even
    a CV containing every keyword earns `40 * distinct / len < 40`. -/
theorem keywordScore_duplicates (cv_text : String) (job_keywords : List String)
    (hne : job_keywords ≠ [])
    (hdup : ¬ (job_keywords.map pyLower).Nodup)
    (hall : ∀ k ∈ job_keywords, pyIn (pyLower k) (pyLower cv_text) = true) :
    keywordScore cv_text job_keywords =
      40 * (((job_keywords.map pyLower).dedup.length : ℚ) / (job_keywords.length : ℚ)) ∧
    keywordScore cv_text job_keywords < 40 := by
  have hfilter : ((job_keywords.map pyLower).dedup.filter fun k =>
      pyIn k (pyLower cv_text)) = (job_keywords.map pyLower).dedup := by
    apply List.filter_eq_self.mpr
    intro a ha
    have ha2 : a ∈ job_keywords.map pyLower := List.mem_dedup.mp ha
    rcases List.mem_map.mp ha2 with ⟨k, hk, rfl⟩
    exact hall k hk
  have heq : keywordScore cv_text job_keywords =
      40 * (((job_keywords.map pyLower).dedup.length : ℚ) / (job_keywords.length : ℚ)) := by
    unfold keywordScore
    have hmapne : job_keywords.map pyLower ≠ [] := by simpa using hne
    have hie : (job_keywords.map pyLower).isEmpty = false := by
      simpa [List.isEmpty_iff] using hmapne
    rw [if_neg (by simp [hie])]
    have hpos : 1 ≤ job_keywords.length :=
      Nat.one_le_iff_ne_zero.mpr (by simpa [List.length_eq_zero] using hne)
    have hmax : max 1 (job_keywords.map pyLower).length = job_keywords.length := by
      rw [List.length_map]
      exact Nat.max_eq_right hpos
    rw [hfilter, hmax]
  refine ⟨heq, ?_⟩
  rw [heq]
  have hlt : (job_keywords.map pyLower).dedup.length < job_keywords.length := by
    have hsub := List.dedup_sublist (job_keywords.map pyLower)
    have hle : (job_keywords.map pyLower).dedup.length ≤ job_keywords.length := by
      have := hsub.length_le
      simpa [List.length_map] using this
    rcases Nat.lt_or_ge (job_keywords.map pyLower).dedup.length job_keywords.length with h | h
    · exact h
    · exfalso
      have hlen : (job_keywords.map pyLower).dedup.length =
          (job_keywords.map pyLower).length := by
        rw [List.length_map]
        omega
      have := hsub.eq_of_length hlen
      exact hdup (this ▸ List.nodup_dedup (job_keywords.map pyLower))
  have hposq : (0 : ℚ) < (job_keywords.length : ℚ) := by
    have hpos : 0 < job_keywords.length := by
      cases job_keywords with
      | nil => exact absurd rfl hne
      | cons a as => simp
    exact_mod_cast hpos
  have hq : (((job_keywords.map pyLower).dedup.length : ℚ) / (job_keywords.length : ℚ)) < 1 := by
    rw [div_lt_one hposq]
    exact_mod_cast hlt
  nlinarith

/-- Witness for C9: the duplicated list `["cat", "cat"]` against a CV that
    contains the keyword still earns only `40 * 1 / 2 = 20 < 40`. -/
theorem keywordScore_duplicates_witness :
    (["cat", "cat"] : List String) ≠ [] ∧
    ¬ ((["cat", "cat"] : List String).map pyLower).Nodup ∧
    (∀ k ∈ (["cat", "cat"] : List String), pyIn (pyLower k) (pyLower "my cat is here") = true) ∧
    (keywordScore "my cat is here" ["cat", "cat"] =
      40 * (((["cat", "cat"].map pyLower).dedup.length : ℚ) /
        ((["cat", "cat"] : List String).length : ℚ)) ∧
     keywordScore "my cat is here" ["cat", "cat"] < 40) :=
  ⟨by decide, by decide, by decide,
   keywordScore_duplicates "my cat is here" ["cat", "cat"] (by decide) (by decide) (by decide)⟩

-- -------------------- Helper lemmas: tips --------------------

theorem ne_of_head?_ne {a b : String} (h : a.data.head? ≠ b.data.head?) : a ≠ b :=
  fun e => h (by rw [e])

theorem head?_data_append (p s : String) (hp : p.data ≠ []) :
    (p ++ s).data.head? = p.data.head? := by
  rw [String.data_append]
  cases hpd : p.data with
  | nil => exact absurd hpd hp
  | cons x xs => simp

theorem data_append_ne_nil (p s : String) (hp : p.data ≠ []) : (p ++ s).data ≠ [] := by
  rw [String.data_append]
  cases hpd : p.data with
  | nil => exact absurd hpd hp
  | cons x xs => simp

theorem expTip_ne_summary (score : Int) :
    expTip ≠ "Your CV scored " ++ toString score ++ "/100. Here are prioritized improvement tips:" := by
  apply ne_of_head?_ne
  have h1 : ("Your CV scored " ++ toString score ++ "/100. Here are prioritized improvement tips:").data.head? =
      some 'Y' := by
    rw [head?_data_append _ _ (data_append_ne_nil _ _ (by decide))]
    rw [head?_data_append _ _ (by decide)]
    decide
  rw [h1]
  decide

theorem expTip_ne_missing (s : String) :
    expTip ≠ "Include more of these job-specific keywords where truthful: " ++ s := by
  apply ne_of_head?_ne
  rw [head?_data_append _ _ (by decide)]
  decide

theorem lookup_mem_snd {l : List (String × List String)} {k : String} {v : List String}
    (h : l.lookup k = some v) : ∃ p ∈ l, p.2 = v := by
  induction l with
  | nil => simp [List.lookup] at h
  | cons a as ih =>
      rw [List.lookup] at h
      split at h
      · exact ⟨a, List.mem_cons_self a as, Option.some.inj h⟩
      · rcases ih h with ⟨p, hp, hv⟩
        exact ⟨p, List.mem_cons_of_mem a hp, hv⟩

theorem expTip_not_mem_ats (ats_name : String) :
    expTip ∉ (ATS_TIPS.lookup ats_name).getD ((ATS_TIPS.lookup "Unknown/Custom").getD []) := by
  cases hl : ATS_TIPS.lookup ats_name with
  | none =>
      simp only [Option.getD_none]
      decide
  | some v =>
      simp only [Option.getD_some]
      rcases lookup_mem_snd hl with ⟨p, hp, hv⟩
      have hall : ∀ p ∈ ATS_TIPS, expTip ∉ p.2 := by decide
      rw [← hv]
      exact hall p hp

theorem pyIn_experience_mono {cv_text : String} (h : pyIn "Work Experience" cv_text = true) :
    pyIn "Experience" cv_text = true := by
  have h1 : ("Experience" : String).data <:+: ("Work Experience" : String).data :=
    (listContains_iff _ _).mp (by decide)
  exact (pyIn_iff _ _).mpr (h1.trans ((pyIn_iff _ _).mp h))

-- -------------------- Claim theorems: tips --------------------

/-- C5: at a score of at least 85, `build_improvement_tips` returns exactly
    one tip (the congratulatory summary); below 85 it returns more than one
    tip and the first tip contains the decimal representation of the
    (already rounded, integer) score. -/
theorem build_improvement_tips_spec (score : Int) (ats_name cv_text : String)
    (job_keywords : List String) :
    (85 ≤ score → (build_improvement_tips score ats_name cv_text job_keywords).length = 1) ∧
    (score < 85 →
      1 < (build_improvement_tips score ats_name cv_text job_keywords).length ∧
      pyIn (toString score)
        ((build_improvement_tips score ats_name cv_text job_keywords).headD "") = true) := by
  constructor
  · intro h
    unfold build_improvement_tips
    rw [if_pos h]
    rfl
  · intro h
    unfold build_improvement_tips
    rw [if_neg (by omega)]
    dsimp only
    constructor
    · simp only [List.length_cons, List.length_append]
      have h3 : (GENERIC_TIPS.take 3).length = 3 := rfl
      omega
    · simp only [List.headD_cons]
      apply (pyIn_iff _ _).mpr
      refine ⟨("Your CV scored " : String).data,
        ("/100. Here are prioritized improvement tips:" : String).data, ?_⟩
      simp [String.data_append, List.append_assoc]

/-- Witness for C5 at scores 90 and 50. -/
theorem build_improvement_tips_spec_witness :
    ((85 : Int) ≤ 90 ∧ (build_improvement_tips 90 "Greenhouse" "" []).length = 1) ∧
    ((50 : Int) < 85 ∧
      (1 < (build_improvement_tips 50 "Greenhouse" "" []).length ∧
       pyIn (toString (50 : Int)) ((build_improvement_tips 50 "Greenhouse" "" []).headD "") = true)) :=
  ⟨⟨by decide, (build_improvement_tips_spec 90 "Greenhouse" "" []).1 (by decide)⟩,
   ⟨by decide, (build_improvement_tips_spec 50 "Greenhouse" "" []).2 (by decide)⟩⟩

/-- C10: below the 85 threshold, the missing-"Work Experience"-section tip
    is appended exactly when the case-sensitive substring `"Experience"`
    does not occur in the CV text (the `"Work Experience"` half of the
    source's test is subsumed), so CVs with only other casings such as
    `"EXPERIENCE"` still receive it. -/
theorem expTip_mem_iff (score : Int) (ats_name cv_text : String)
    (job_keywords : List String) (h : score < 85) :
    expTip ∈ build_improvement_tips score ats_name cv_text job_keywords ↔
      pyIn "Experience" cv_text = false := by
  unfold build_improvement_tips
  rw [if_neg (by omega)]
  dsimp only
  constructor
  · intro hmem
    by_contra hexp
    have hexp2 : pyIn "Experience" cv_text = true := by
      cases he : pyIn "Experience" cv_text with
      | false => exact absurd he hexp
      | true => rfl
    rcases List.mem_cons.mp hmem with hsum | hrest
    · exact expTip_ne_summary score hsum
    rcases List.mem_append.mp hrest with hrest | hgen
    rcases List.mem_append.mp hrest with hrest | hkw
    rcases List.mem_append.mp hrest with hrest | hphone
    rcases List.mem_append.mp hrest with hrest | hemail
    rcases List.mem_append.mp hrest with hats | hsec
    · exact expTip_not_mem_ats ats_name hats
    · rw [hexp2] at hsec
      simp at hsec
    · revert hemail
      split_ifs <;> simp <;> decide
    · revert hphone
      split_ifs <;> simp <;> decide
    · revert hkw
      split_ifs <;> simp
      exact expTip_ne_missing _
    · revert hgen
      decide
  · intro hexp
    have hwe : pyIn "Work Experience" cv_text = false := by
      cases hw : pyIn "Work Experience" cv_text with
      | false => rfl
      | true => rw [pyIn_experience_mono hw] at hexp; exact absurd hexp (by simp)
    apply List.mem_cons_of_mem
    apply List.mem_append.mpr
    apply Or.inl
    apply List.mem_append.mpr
    apply Or.inl
    apply List.mem_append.mpr
    apply Or.inl
    apply List.mem_append.mpr
    apply Or.inl
    apply List.mem_append.mpr
    apply Or.inr
    rw [hwe, hexp]
    simp

/-- Witness for C10: a CV whose only experience heading is the casing
    `"EXPERIENCE"` still receives the tip. -/
theorem expTip_mem_iff_witness :
    ((0 : Int) < 85 ∧ pyIn "Experience" "EXPERIENCE at ACME" = false) ∧
    expTip ∈ build_improvement_tips 0 "Greenhouse" "EXPERIENCE at ACME" ["python"] :=
  ⟨⟨by decide, by decide⟩,
   (expTip_mem_iff 0 "Greenhouse" "EXPERIENCE at ACME" ["python"] (by decide)).mpr (by decide)⟩

-- -------------------- Helper lemmas: most common element --------------------

theorem mostCommonGo_spec (l : List String) :
    ∀ ys init b, b ∈ init → l = init ++ ys →
    (∀ m ∈ init, l.count m ≤ l.count b) →
    (∀ m ∈ init, l.count m = l.count b → l.indexOf b ≤ l.indexOf m) →
    (mostCommonGo l ys b ∈ l ∧
     (∀ m ∈ l, l.count m ≤ l.count (mostCommonGo l ys b)) ∧
     (∀ m ∈ l, l.count m = l.count (mostCommonGo l ys b) →
        l.indexOf (mostCommonGo l ys b) ≤ l.indexOf m)) := by
  intro ys
  induction ys with
  | nil =>
      intro init b hbmem hl hcnt hidx
      have hinit : init = l := by rw [hl, List.append_nil]
      subst hinit
      exact ⟨hbmem, hcnt, hidx⟩
  | cons y ys ih =>
      intro init b hbmem hl hcnt hidx
      have hl2 : l = (init ++ [y]) ++ ys := by
        rw [hl, List.append_assoc, List.singleton_append]
      simp only [mostCommonGo]
      by_cases hc : l.count b < l.count y
      · rw [if_pos hc]
        apply ih (init ++ [y]) y (by simp) hl2
        · intro m hm
          rcases List.mem_append.mp hm with hm | hm
          · exact le_of_lt (lt_of_le_of_lt (hcnt m hm) hc)
          · rw [List.mem_singleton.mp hm]
        · intro m hm hceq
          rcases List.mem_append.mp hm with hm | hm
          · exact absurd hceq (Nat.ne_of_lt (lt_of_le_of_lt (hcnt m hm) hc))
          · rw [List.mem_singleton.mp hm]
      · rw [if_neg hc]
        apply ih (init ++ [y]) b (List.mem_append.mpr (Or.inl hbmem)) hl2
        · intro m hm
          rcases List.mem_append.mp hm with hm | hm
          · exact hcnt m hm
          · rw [List.mem_singleton.mp hm]
            omega
        · intro m hm hceq
          rcases List.mem_append.mp hm with hm | hm
          · exact hidx m hm hceq
          · rw [List.mem_singleton.mp hm] at hceq ⊢
            by_cases hyinit : y ∈ init
            · exact hidx y hyinit hceq
            · have hinb : l.indexOf b < init.length := by
                rw [hl, List.indexOf_append_of_mem hbmem]
                exact List.indexOf_lt_length.mpr hbmem
              have hiny : l.indexOf y = init.length + (y :: ys).indexOf y := by
                rw [hl, List.indexOf_append_of_not_mem hyinit]
              rw [hiny]
              omega

theorem mostCommon_spec (l : List String) (hne : l ≠ []) :
    ∃ n, mostCommon l = some n ∧ n ∈ l ∧
      (∀ m ∈ l, l.count m ≤ l.count n) ∧
      (∀ m ∈ l, l.count m = l.count n → l.indexOf n ≤ l.indexOf m) := by
  cases l with
  | nil => exact absurd rfl hne
  | cons x xs =>
      have h := mostCommonGo_spec (x :: xs) xs [x] x (by simp) (by simp)
        (by intro m hm; rw [List.mem_singleton.mp hm])
        (by intro m hm hc; rw [List.mem_singleton.mp hm])
      exact ⟨mostCommonGo (x :: xs) xs x, rfl, h.1, h.2.1, h.2.2⟩

-- -------------------- Helper lemmas: urlparse error path --------------------

theorem indexOf_ne_of_ne {l : List String} {a b : String} (ha : a ∈ l) (hne : a ≠ b) :
    l.indexOf a ≠ l.indexOf b := by
  intro he
  have h1 : l.indexOf a < l.length := List.indexOf_lt_length.mpr ha
  by_cases hb : b ∈ l
  · have h2 : l.indexOf b < l.length := List.indexOf_lt_length.mpr hb
    have ga : l[l.indexOf a] = a := List.getElem_indexOf h1
    have gb : l[l.indexOf b] = b := List.getElem_indexOf h2
    apply hne
    rw [← ga, ← gb]
    congr 1
  · have h2 : l.indexOf b = l.length := List.indexOf_eq_length.mpr hb
    omega

theorem indexOf_filter_lt (p : String → Bool) {a b : String}
    (ha : p a = true) (hb : p b = true) :
    ∀ l : List String, (l.filter p).indexOf a < (l.filter p).indexOf b →
      l.indexOf a < l.indexOf b := by
  intro l
  induction l with
  | nil => intro h; simpa using h
  | cons x xs ih =>
      intro h
      by_cases hax : x = a
      · subst hax
        have hba : b ≠ x := by
          intro hba
          rw [hba] at h
          omega
        rw [List.indexOf_cons_self, List.indexOf_cons_ne _ (fun hxb => hba hxb.symm)]
        omega
      · by_cases hbx : x = b
        · subst hbx
          rw [List.filter_cons_of_pos hb] at h
          rw [List.indexOf_cons_self] at h
          omega
        · cases hpx : p x with
          | true =>
              rw [List.filter_cons_of_pos hpx, List.indexOf_cons_ne _ hax,
                List.indexOf_cons_ne _ hbx] at h
              rw [List.indexOf_cons_ne _ hax, List.indexOf_cons_ne _ hbx]
              have := ih (by omega)
              omega
          | false =>
              rw [List.filter_cons_of_neg (by simp [hpx])] at h
              rw [List.indexOf_cons_ne _ hax, List.indexOf_cons_ne _ hbx]
              have := ih h
              omega

theorem mostCommonTake_spec (n : Nat) : ∀ l : List String,
    (∀ t ∈ mostCommonTake n l, t ∈ l) ∧
    (mostCommonTake n l).length ≤ n ∧
    (mostCommonTake n l).Nodup ∧
    ((mostCommonTake n l).length < n → ∀ t ∈ l, t ∈ mostCommonTake n l) ∧
    (mostCommonTake n l).Pairwise (fun a b =>
      l.count b < l.count a ∨ (l.count b = l.count a ∧ l.indexOf a < l.indexOf b)) ∧
    (∀ t ∈ l, t ∉ mostCommonTake n l → ∀ r ∈ mostCommonTake n l,
      l.count t < l.count r ∨ (l.count t = l.count r ∧ l.indexOf r < l.indexOf t)) := by
  induction n with
  | zero => intro l; simp [mostCommonTake]
  | succ n ih =>
      intro l
      by_cases hln : l = []
      · subst hln
        simp [mostCommonTake, mostCommon]
      · rcases mostCommon_spec l hln with ⟨w, hmc, hwmem, hwcnt, hwidx⟩
        have heq : mostCommonTake (n + 1) l =
            w :: mostCommonTake n (l.filter fun t => t != w) := by
          simp only [mostCommonTake, hmc]
        rcases ih (l.filter fun t => t != w) with
          ⟨ih_mem, ih_len, ih_nodup, ih_all, ih_pair, ih_top⟩
        have hmem_rest : ∀ t ∈ mostCommonTake n (l.filter fun t => t != w),
            t ∈ l ∧ t ≠ w := by
          intro t ht
          have := List.mem_filter.mp (ih_mem t ht)
          exact ⟨this.1, bne_iff_ne.mp this.2⟩
        refine ⟨?_, ?_, ?_, ?_, ?_, ?_⟩
        · intro t ht
          rw [heq] at ht
          rcases List.mem_cons.mp ht with rfl | ht
          · exact hwmem
          · exact (hmem_rest t ht).1
        · rw [heq, List.length_cons]
          omega
        · rw [heq]
          exact List.nodup_cons.mpr ⟨fun hw => (hmem_rest w hw).2 rfl, ih_nodup⟩
        · intro hlen t ht
          rw [heq, List.length_cons] at hlen
          rw [heq]
          by_cases htw : t = w
          · exact htw ▸ List.mem_cons_self _ _
          · refine List.mem_cons_of_mem _ (ih_all (by omega) t ?_)
            exact List.mem_filter.mpr ⟨ht, bne_iff_ne.mpr htw⟩
        · rw [heq]
          refine List.pairwise_cons.mpr ⟨?_, ?_⟩
          · intro b hb
            rcases hmem_rest b hb with ⟨hbl, hbw⟩
            rcases Nat.lt_or_ge (l.count b) (l.count w) with hlt | hge
            · exact Or.inl hlt
            · have hceq : l.count b = l.count w :=
                Nat.le_antisymm (hwcnt b hbl) hge
              refine Or.inr ⟨hceq, ?_⟩
              have hle := hwidx b hbl hceq
              have hne := indexOf_ne_of_ne hwmem (fun hwb => hbw hwb.symm)
              omega
          · refine List.Pairwise.imp_of_mem ?_ ih_pair
            intro a b hal hbl hr
            have hpa : (a != w) = true :=
              (List.mem_filter.mp (ih_mem a hal)).2
            have hpb : (b != w) = true :=
              (List.mem_filter.mp (ih_mem b hbl)).2
            have hca : (l.filter fun t => t != w).count a = l.count a :=
              List.count_filter hpa
            have hcb : (l.filter fun t => t != w).count b = l.count b :=
              List.count_filter hpb
            rcases hr with hlt | ⟨hceq, hidx⟩
            · exact Or.inl (by rw [← hca, ← hcb]; exact hlt)
            · refine Or.inr ⟨by rw [← hca, ← hcb]; exact hceq, ?_⟩
              exact indexOf_filter_lt (fun t => t != w) hpa hpb l hidx
        · intro t htl htnot r hr
          rw [heq] at htnot hr
          have htw : t ≠ w := fun hh => htnot (hh ▸ List.mem_cons_self _ _)
          rcases List.mem_cons.mp hr with hrw | hrt
          · subst hrw
            rcases Nat.lt_or_ge (l.count t) (l.count r) with hlt | hge
            · exact Or.inl hlt
            · have hceq : l.count t = l.count r := Nat.le_antisymm (hwcnt t htl) hge
              refine Or.inr ⟨hceq, ?_⟩
              have hle := hwidx t htl hceq
              have hne := indexOf_ne_of_ne hwmem (fun hwt => htw hwt.symm)
              omega
          · have hpt : (t != w) = true := bne_iff_ne.mpr htw
            have htl2 : t ∈ l.filter (fun x => x != w) := List.mem_filter.mpr ⟨htl, hpt⟩
            have htnot2 : t ∉ mostCommonTake n (l.filter fun x => x != w) :=
              fun hh => htnot (List.mem_cons_of_mem _ hh)
            have hres := ih_top t htl2 htnot2 r hrt
            have hpr : (r != w) = true := bne_iff_ne.mpr (hmem_rest r hrt).2
            have hct : (l.filter fun x => x != w).count t = l.count t :=
              List.count_filter hpt
            have hcr : (l.filter fun x => x != w).count r = l.count r :=
              List.count_filter hpr
            rcases hres with hlt | ⟨hceq, hidx⟩
            · exact Or.inl (by rw [← hct, ← hcr]; exact hlt)
            · refine Or.inr ⟨by rw [← hct, ← hcr]; exact hceq, ?_⟩
              exact indexOf_filter_lt (fun x => x != w) hpr hpt l hidx

-- -------------------- Claim theorem: keyword extraction --------------------

/-- C8: `extract_keywords` tokenizes by stripping every character outside
    letters/digits/hyphen/whitespace, lowercasing, splitting on whitespace,
    dropping tokens of length at most 2 and stopwords (the list `tokensOf`),
    and returns the `top_n` most frequent distinct such tokens — at most
    `top_n`, all of them when fewer remain, ordered by strictly descending
    frequency with ties broken by first occurrence, and every token left
    out is strictly less frequent than, or tied with but first seen later
    than, every selected token; in particular
    `extract_keywords "the a of cat cat dog" 2 = ["cat", "dog"]`, and with
    three distinct tokens truncated to two,
    `extract_keywords "cat cat dog bird bird bird" 2 = ["bird", "cat"]`. -/
theorem extract_keywords_spec (text : String) (top_n : Nat) :
    (∀ t ∈ extract_keywords text top_n, t ∈ tokensOf text) ∧
    (extract_keywords text top_n).length ≤ top_n ∧
    (extract_keywords text top_n).Nodup ∧
    ((extract_keywords text top_n).length < top_n →
      ∀ t ∈ tokensOf text, t ∈ extract_keywords text top_n) ∧
    (extract_keywords text top_n).Pairwise (fun a b =>
      (tokensOf text).count b < (tokensOf text).count a ∨
      ((tokensOf text).count b = (tokensOf text).count a ∧
       (tokensOf text).indexOf a < (tokensOf text).indexOf b)) ∧
    (∀ t ∈ tokensOf text, t ∉ extract_keywords text top_n →
      ∀ r ∈ extract_keywords text top_n,
        (tokensOf text).count t < (tokensOf text).count r ∨
        ((tokensOf text).count t = (tokensOf text).count r ∧
         (tokensOf text).indexOf r < (tokensOf text).indexOf t)) ∧
    extract_keywords "the a of cat cat dog" 2 = ["cat", "dog"] ∧
    extract_keywords "cat cat dog bird bird bird" 2 = ["bird", "cat"] := by
  rcases mostCommonTake_spec top_n (tokensOf text) with ⟨h1, h2, h3, h4, h5, h6⟩
  exact ⟨h1, h2, h3, h4, h5, h6, by decide, by decide⟩

/-- Witness for C8 at the spec's example input. -/
theorem extract_keywords_spec_witness :
    (∀ t ∈ extract_keywords "the a of cat cat dog" 2, t ∈ tokensOf "the a of cat cat dog") ∧
    (extract_keywords "the a of cat cat dog" 2).length ≤ 2 ∧
    (extract_keywords "the a of cat cat dog" 2).Nodup ∧
    ((extract_keywords "the a of cat cat dog" 2).length < 2 →
      ∀ t ∈ tokensOf "the a of cat cat dog", t ∈ extract_keywords "the a of cat cat dog" 2) ∧
    (extract_keywords "the a of cat cat dog" 2).Pairwise (fun a b =>
      (tokensOf "the a of cat cat dog").count b < (tokensOf "the a of cat cat dog").count a ∨
      ((tokensOf "the a of cat cat dog").count b = (tokensOf "the a of cat cat dog").count a ∧
       (tokensOf "the a of cat cat dog").indexOf a < (tokensOf "the a of cat cat dog").indexOf b)) ∧
    (∀ t ∈ tokensOf "the a of cat cat dog", t ∉ extract_keywords "the a of cat cat dog" 2 →
      ∀ r ∈ extract_keywords "the a of cat cat dog" 2,
        (tokensOf "the a of cat cat dog").count t < (tokensOf "the a of cat cat dog").count r ∨
        ((tokensOf "the a of cat cat dog").count t = (tokensOf "the a of cat cat dog").count r ∧
         (tokensOf "the a of cat cat dog").indexOf r < (tokensOf "the a of cat cat dog").indexOf t)) ∧
    extract_keywords "the a of cat cat dog" 2 = ["cat", "dog"] ∧
    extract_keywords "cat cat dog bird bird bird" 2 = ["bird", "cat"] :=
  extract_keywords_spec "the a of cat cat dog" 2

-- -------------------- Helper lemmas: HTML extraction --------------------

theorem candidateLoop_empty : ∀ (rs : List (Option String)) (acc : String),
    (∀ r ∈ rs, ∀ t, r = some t → t = "") → candidateLoop rs acc = acc := by
  intro rs
  induction rs with
  | nil => intro acc _; rfl
  | cons r rest ih =>
      intro acc h
      cases r with
      | none =>
          show candidateLoop rest acc = acc
          exact ih acc fun r hr => h r (List.mem_cons_of_mem _ hr)
      | some t =>
          have ht : t = "" := h (some t) (List.mem_cons_self (some t) rest) t rfl
          subst ht
          show (if (("" : String) != "") = true then
            (if ("" : String).length > 200 then "" else candidateLoop rest "")
            else candidateLoop rest acc) = acc
          rw [if_neg (by simp)]
          exact ih acc fun r hr => h r (List.mem_cons_of_mem _ hr)

theorem collapseWsAux_head_of_not_ws (b : Char) (rest : List Char) (hb : isPyWs b = false) :
    (collapseWsAux (b :: rest)).head? = some b := by
  cases rest with
  | nil => simp [collapseWsAux, hb]
  | cons c rest2 => simp [collapseWsAux, hb]

theorem noWsRun_cons (x : Char) (ys : List Char) (h1 : noWsRun ys = true)
    (h2 : isPyWs x = false ∨ ∀ y, ys.head? = some y → isPyWs y = false) :
    noWsRun (x :: ys) = true := by
  cases ys with
  | nil => rfl
  | cons y ys2 =>
      show (!(isPyWs x && isPyWs y) && noWsRun (y :: ys2)) = true
      rcases h2 with hx | hy
      · simp [hx, h1]
      · simp [hy y rfl, h1]

theorem collapseWsAux_props : ∀ l : List Char,
    ((collapseWsAux l).all fun c => !(isPyWs c) || c == ' ') = true ∧
    noWsRun (collapseWsAux l) = true := by
  intro l
  induction l with
  | nil => exact ⟨rfl, rfl⟩
  | cons a tail ih =>
      cases tail with
      | nil =>
          cases ha : isPyWs a with
          | true => simp [collapseWsAux, ha, noWsRun]
          | false => simp [collapseWsAux, ha, noWsRun]
      | cons b rest =>
          cases hab : isPyWs a && isPyWs b with
          | true =>
              have he : collapseWsAux (a :: b :: rest) = collapseWsAux (b :: rest) := by
                show (if isPyWs a && isPyWs b then _ else _) = _
                rw [if_pos hab]
              rw [he]
              exact ih
          | false =>
              have he : collapseWsAux (a :: b :: rest) =
                  (if isPyWs a then ' ' else a) :: collapseWsAux (b :: rest) := by
                show (if isPyWs a && isPyWs b then _ else _) = _
                rw [if_neg (by simp [hab])]
              rw [he]
              refine ⟨?_, ?_⟩
              · rw [List.all_cons, ih.1]
                cases ha : isPyWs a <;> simp [ha]
              · cases ha : isPyWs a with
                | false =>
                    rw [if_neg (by simp [ha])]
                    exact noWsRun_cons a _ ih.2 (Or.inl ha)
                | true =>
                    rw [if_pos (by simp [ha])]
                    have hb : isPyWs b = false := by
                      cases hbv : isPyWs b with
                      | false => rfl
                      | true => rw [ha, hbv] at hab; simp at hab
                    refine noWsRun_cons ' ' _ ih.2 (Or.inr ?_)
                    intro y hy
                    rw [collapseWsAux_head_of_not_ws b rest hb] at hy
                    injection hy with hy
                    exact hy ▸ hb

theorem wsCollapsed_collapseWs (s : String) : wsCollapsed (collapseWs s).data = true := by
  have h := collapseWsAux_props s.data
  show (((collapseWsAux s.data).all fun c => !(isPyWs c) || c == ' ') &&
    noWsRun (collapseWsAux s.data)) = true
  rw [h.1, h.2]
  rfl

-- -------------------- Claim theorems: HTML extraction --------------------

/-- C4 counterexample: a soup whose first selector yields the non-empty
    text `"short"` (14 characters below the 200 threshold) and whose body
    text is `"the body text"` — the function keeps `"short"` instead of
    falling back to the body, so the claim's fallback condition ("no
    selector exceeded 200 characters") is wrong on the code. -/
theorem extract_job_text_fallback_counterexample :
    (∀ r ∈ ([some "short", none, none, none, none, none, none, none] : List (Option String)),
      ∀ t, r = some t → ¬ t.length > 200) ∧
    extract_job_text_from_html
      ⟨[some "short", none, none, none, none, none, none, none], some "the body text"⟩ = "short" ∧
    extract_job_text_from_html
      ⟨[some "short", none, none, none, none, none, none, none], some "the body text"⟩ ≠
      collapseWs "the body text" := by
  refine ⟨by decide, by decide, by decide⟩

/-- C4 (amended): the body fallback fires only when no selector yielded any
    non-empty text (a selector result that is non-empty but at most 200
    characters is kept instead), and the final result always has every
    whitespace run collapsed to a single space. -/
theorem extract_job_text_spec (soup soup2 : Soup)
    (h : ∀ r ∈ soup.selRes, ∀ t, r = some t → t = "") :
    extract_job_text_from_html soup = collapseWs (soup.bodyRes.getD "") ∧
    wsCollapsed (extract_job_text_from_html soup2).data = true := by
  constructor
  · unfold extract_job_text_from_html
    rw [candidateLoop_empty soup.selRes "" h]
    dsimp only
    cases soup.bodyRes with
    | none => rfl
    | some b => rfl
  · unfold extract_job_text_from_html
    dsimp only
    exact wsCollapsed_collapseWs _

/-- Witness for C4 (amended): all selectors empty or missing, body holding
    text with a whitespace run; the second soup has an unused selector
    candidate with internal whitespace runs. -/
theorem extract_job_text_spec_witness :
    (∀ r ∈ (Soup.mk [none, some "", none, none, none, none, none, none]
        (some "body  text")).selRes, ∀ t, r = some t → t = "") ∧
    (extract_job_text_from_html
        (Soup.mk [none, some "", none, none, none, none, none, none] (some "body  text")) =
      collapseWs ((Soup.mk [none, some "", none, none, none, none, none, none]
        (some "body  text")).bodyRes.getD "") ∧
     wsCollapsed (extract_job_text_from_html
        (Soup.mk [some "a\tb\n\nc", none, none, none, none, none, none, none] none)).data = true) :=
  ⟨by decide,
   extract_job_text_spec
     (Soup.mk [none, some "", none, none, none, none, none, none] (some "body  text"))
     (Soup.mk [some "a\tb\n\nc", none, none, none, none, none, none, none] none)
     (by decide)⟩

end ATSApp
